import Mathlib

/-!
Verification of the copy engine of `zarr/convenience.py`.

The Python source is shallowly embedded: flat stores become association
lists from string keys to byte values (bytes are `List Nat`), compiled
regular expressions become abstract search predicates `String → Bool`
(`prog.search(key)` is `p key`), Python dicts become insertion-ordered
association lists, and the mutable keyword-argument dicts threaded through
the recursive node copier become cells of an explicit heap so that
mutation (or its absence) is observable.  Definitions come first, then the
lemmas and claim theorems about them.
-/

/-! ## Association lists (Python `dict` with insertion order) -/

/-- Python `d[k]` / `d.get(k)`: first binding of `k` in an association list. -/
def alookup : List (String × α) → String → Option α
  | [], _ => none
  | (k0, v0) :: rest, k => if k0 = k then some v0 else alookup rest k

/-- Python `d[k] = v`: replace the binding in place, or append a new one. -/
def assocSet : List (String × α) → String → α → List (String × α)
  | [], k, v => [(k, v)]
  | (k0, v0) :: rest, k, v =>
    if k0 = k then (k, v) :: rest else (k0, v0) :: assocSet rest k v

/-! ## Filter (the exclude/include logic of `copy_store`, lines 489-501) -/

/-- Decision of the exclude/include loop in `copy_store`: `exclude` is set by
the first matching exclude pattern, then flipped back by the first matching
include pattern.  The compiled patterns are abstracted as search predicates. -/
def keyExcluded (excludes includes : List (String → Bool)) (source_key : String) : Bool :=
  let exclude := excludes.any fun prog => prog source_key
  if exclude then !(includes.any fun prog => prog source_key) else false

/-! ## Path handling for the flat copier -/

/-- Python `p.isPrefixOf`-style check on character lists, used to model
`str.startswith`. -/
def listPfx : List Char → List Char → Bool
  | [], _ => true
  | _ :: _, [] => false
  | a :: as, b :: bs => if a = b then listPfx as bs else false

/-- Python `source_key.startswith(source_path)`. -/
def strStartsWith (s p : String) : Bool := listPfx p.data s.data

/-- Python slicing `s[n:]`. -/
def strDropLen (s : String) (n : Nat) : String := ⟨s.data.drop n⟩

/-- Modelled from the spec: `normalize_storage_path` lives in `zarr.util`,
which is not among the sources; spec section 4.2 says both prefixes are
normalized by stripping leading and trailing separators. -/
def normalize_storage_path (p : String) : String :=
  ⟨((p.data.dropWhile (· = '/')).reverse.dropWhile (· = '/')).reverse⟩

/-- The normalized, separator-terminated-when-non-empty path used by
`copy_store` (lines 460-466): `if source_path: source_path += '/'`. -/
def prefixTerm (p : String) : String :=
  let q := normalize_storage_path p
  if q = "" then q else q ++ "/"

/-! ## Sorted key enumeration (`sorted(source.keys())`) -/

/-- Lexicographic code-point comparison of character lists, modelling the
order Python `sorted` uses on strings. -/
def strLtChars : List Char → List Char → Bool
  | [], [] => false
  | [], _ :: _ => true
  | _ :: _, [] => false
  | a :: as, b :: bs => if a < b then true else if b < a then false else strLtChars as bs

def strKeyLt (a b : String) : Bool := strLtChars a.data b.data

def insertSorted (k : String) : List String → List String
  | [] => [k]
  | x :: xs => if strKeyLt k x then k :: x :: xs else x :: insertSorted k xs

def sortKeys : List String → List String
  | [] => []
  | x :: xs => insertSorted x (sortKeys xs)

/-! ## Flat copier `copy_store` (lines 394-509) -/

/-- Loop body of `copy_store` for one `source_key`:  skip keys not under the
source prefix, apply the filter, remap the surviving key, and read its value. -/
def csEntry (sp dp : String) (excludes includes : List (String → Bool))
    (source : List (String × List Nat)) (source_key : String) :
    Option (String × String × List Nat) :=
  if strStartsWith source_key sp then
    if keyExcluded excludes includes source_key then none
    else
      match alookup source source_key with
      | some v => some (source_key, dp ++ strDropLen source_key sp.length, v)
      | none => none
  else none

/-- All (source key, destination key, value) triples copied by `copy_store`,
in the order the loop processes them. -/
def copy_store_pairs (source : List (String × List Nat)) (source_path dest_path : String)
    (excludes includes : List (String → Bool)) : List (String × String × List Nat) :=
  (sortKeys (source.map Prod.fst)).filterMap
    (csEntry (prefixTerm source_path) (prefixTerm dest_path) excludes includes source)

/-- Progress lines emitted by `copy_store` (`'{} -> {}'.format(...)`, line 508). -/
def copy_store_log (source : List (String × List Nat)) (source_path dest_path : String)
    (excludes includes : List (String → Bool)) : List String :=
  (copy_store_pairs source source_path dest_path excludes includes).map
    fun e => e.1 ++ " -> " ++ e.2.1

/-- The destination store after `copy_store`:  each surviving key is written
with `dest[dest_key] = source[source_key]` (line 509). -/
def copy_store (source dest : List (String × List Nat)) (source_path dest_path : String)
    (excludes includes : List (String → Bool)) : List (String × List Nat) :=
  (copy_store_pairs source source_path dest_path excludes includes).foldl
    (fun d e => assocSet d e.2.1 e.2.2) dest

/-! ## Node copier data model (`copy` / `copy_all` / `_copy`, lines 512-741) -/

/-- Values that can appear in creation keyword arguments. -/
inductive KwVal where
  | str (s : String)
  | nat (n : Nat)
  | bool (b : Bool)
  | natList (l : List Nat)
  | vnone
deriving DecidableEq

/-- Creation keyword arguments, a Python dict. -/
abbrev Kws := List (String × KwVal)

/-- Source leaf handle: shape, dtype, chunk shape, data, attributes, and the
compression settings the two implementations expose (`compressor` on the
native side; `compression`, `compression_opts`, `shuffle` on the h5py side). -/
structure LeafData where
  shape : List Nat
  dtype : String
  chunks : List Nat
  data : List Nat
  attrs : List (String × String)
  compressor : KwVal
  compression : KwVal
  compression_opts : KwVal
  shuffle : KwVal
deriving DecidableEq

mutual
inductive SNode where
  | leaf (info : LeafData)
  | group (gattrs : List (String × String)) (children : SForest)
inductive SForest where
  | nil
  | cons (name : String) (node : SNode) (rest : SForest)
end

mutual
inductive DNode where
  | leaf (shape : List Nat) (dtype : String) (kws : Kws) (data : List Nat)
      (attrs : List (String × String))
  | group (attrs : List (String × String)) (children : DForest)
inductive DForest where
  | nil
  | cons (name : String) (node : DNode) (rest : DForest)
end

/-- Python `dict.setdefault(k, v)`: insert `v` under `k` only if `k` is absent
(new bindings go to the end, as in an insertion-ordered dict). -/
def setdefault (d : Kws) (k : String) (v : KwVal) : Kws :=
  match alookup d k with
  | some _ => d
  | none => d ++ [(k, v)]

/-- Python `dict.update`: write every binding of `src` into `dst`, with `src`
winning on conflicts (used for `attrs.update(source.attrs)`). -/
def attrsUpdate (dst src : List (String × String)) : List (String × String) :=
  src.foldl (fun d kv => assocSet d kv.1 kv.2) dst

/-- A heap of keyword-argument dicts.  Python dicts are mutable references;
`create_kws` is passed around by reference, `.copy()` allocates a fresh cell,
and `**create_kws` at a recursive call packs the contents into a fresh cell.
Cell indices are heap addresses. -/
structure Heap where
  cells : List Kws
deriving DecidableEq

def Heap.get (h : Heap) (r : Nat) : Kws := h.cells.getD r []

def Heap.alloc (h : Heap) (d : Kws) : Nat × Heap := (h.cells.length, ⟨h.cells ++ [d]⟩)

def Heap.put (h : Heap) (r : Nat) (d : Kws) : Heap := ⟨h.cells.set r d⟩

/-- Compression/chunks defaulting of the `_copy` leaf branch (lines 584-608):
`kws = create_kws.copy()` has already been taken; this is the chain of
`setdefault` calls applied to it, switching on the (source, dest)
implementation pair. -/
def resolveKws (source_h5py dest_h5py : Bool) (src : LeafData) (kws0 : Kws) : Kws :=
  let kws := setdefault kws0 "chunks" (KwVal.natList src.chunks)
  if source_h5py then
    if dest_h5py then
      let kws := setdefault kws "compression" src.compression
      let kws := setdefault kws "compression_opts" src.compression_opts
      setdefault kws "shuffle" src.shuffle
    else
      kws
  else
    if dest_h5py then
      let kws := setdefault kws "compression" (KwVal.str "gzip")
      let kws := setdefault kws "compression_opts" (KwVal.nat 1)
      setdefault kws "shuffle" (KwVal.bool true)
    else
      setdefault kws "compressor" src.compressor

/-- Python `s.split('/')` on a character list: split at every separator,
keeping empty segments (so the result is always non-empty). -/
def splitSlash : List Char → List (List Char)
  | [] => [[]]
  | c :: rest =>
    let r := splitSlash rest
    if c = '/' then [] :: r
    else
      match r with
      | [] => [[c]]
      | w :: ws => (c :: w) :: ws

/-- Python `source.name.split('/')[-1]`. -/
def lastSegment (s : String) : String := ⟨(splitSlash s.data).getLastD []⟩

/-- The `TypeError` raised when the source has no usable trailing name
segment; the spec calls this condition `InvalidName`. -/
inductive CopyErr where
  | invalidName
deriving DecidableEq

/-- Name resolution at the top of `_copy` (lines 574-579): an omitted name is
derived from the trailing segment of `source.name`, and a `TypeError` is
raised only on that derivation path when the segment is empty. -/
def resolveName (sname : String) (name? : Option String) : Except CopyErr String :=
  match name? with
  | some n => Except.ok n
  | none =>
    let n := lastSegment sname
    if n = "" then Except.error CopyErr.invalidName else Except.ok n

mutual
/-- Shallow embedding of `_copy` (lines 568-635).  `sname` is `source.name`,
`dpath` is the path of the destination parent group, `ck` is the heap address
of the caller's `create_kws` dict.  Returns the emitted progress lines, the
child created under the destination parent (if any), and the final heap. -/
def _copy (source_h5py dest_h5py : Bool) (src : SNode) (sname : String)
    (name? : Option String) (dpath : String) (root shallow without_attrs : Bool)
    (ck : Nat) (h : Heap) :
    Except CopyErr (List String × Option (String × DNode) × Heap) :=
  match resolveName sname name? with
  | Except.error e => Except.error e
  | Except.ok name =>
    match src with
    | SNode.leaf info =>
      let r := h.alloc (h.get ck)
      let h2 := r.2.put r.1 (resolveKws source_h5py dest_h5py info (r.2.get r.1))
      let dsPath := dpath ++ "/" ++ name
      let attrs := if without_attrs then [] else attrsUpdate [] info.attrs
      Except.ok ([sname ++ " -> " ++ dsPath],
        some (name, DNode.leaf info.shape info.dtype (h2.get r.1) info.data attrs), h2)
    | SNode.group gattrs children =>
      if root || !shallow then
        let gpath := dpath ++ "/" ++ name
        let gAttrs := if without_attrs then [] else attrsUpdate [] gattrs
        match _copyChildren source_h5py dest_h5py children sname gpath shallow without_attrs ck h with
        | Except.error e => Except.error e
        | Except.ok (lgs, kids, h2) =>
          Except.ok ((sname ++ " -> " ++ gpath) :: lgs, some (name, DNode.group gAttrs kids), h2)
      else
        Except.ok ([], none, h)

/-- The recursion over `source.keys()` in the group branch (lines 632-635):
each child call receives `name=k`, `root=False` and a fresh dict packed from
`**create_kws`. -/
def _copyChildren (source_h5py dest_h5py : Bool) (children : SForest) (sname gpath : String)
    (shallow without_attrs : Bool) (ck : Nat) (h : Heap) :
    Except CopyErr (List String × DForest × Heap) :=
  match children with
  | SForest.nil => Except.ok ([], DForest.nil, h)
  | SForest.cons k c rest =>
    let r := h.alloc (h.get ck)
    match _copy source_h5py dest_h5py c (sname ++ "/" ++ k) (some k) gpath false shallow
        without_attrs r.1 r.2 with
    | Except.error e => Except.error e
    | Except.ok (lg, kid?, h2) =>
      match _copyChildren source_h5py dest_h5py rest sname gpath shallow without_attrs ck h2 with
      | Except.error e => Except.error e
      | Except.ok (lgs, kids, h3) =>
        Except.ok (lg ++ lgs,
          (match kid? with
           | some kn => DForest.cons kn.1 kn.2 kids
           | none => kids), h3)
end

/-- Top-level `copy` (lines 512-565): one root call of `_copy` with the
caller's `create_kws` placed in a fresh heap at address 0. -/
def copy (source_h5py dest_h5py : Bool) (src : SNode) (sname : String)
    (name? : Option String) (shallow without_attrs : Bool) (create_kws : Kws) :
    Except CopyErr (List String × Option (String × DNode) × Heap) :=
  _copy source_h5py dest_h5py src sname name? "" true shallow without_attrs 0 ⟨[create_kws]⟩

/-- Top-level `copy_all` (lines 688-741): `_copy` applied to every direct
child of the source group with `root=False`. -/
def copy_all (source_h5py dest_h5py : Bool) (children : SForest) (sname : String)
    (shallow without_attrs : Bool) (create_kws : Kws) :
    Except CopyErr (List String × DForest × Heap) :=
  _copyChildren source_h5py dest_h5py children sname "" shallow without_attrs 0 ⟨[create_kws]⟩

/-! ## Progress sink `_LogWriter` (lines 355-391) -/

/-- The `log` argument accepted by the copy functions: absent, a callback
(identified abstractly), a path string, a writable file-like object
(identified by its already-open handle), or anything else (which the
constructor rejects with a `TypeError`). -/
inductive LogArg where
  | noLog
  | callable (f : Nat)
  | path (p : String)
  | fileLike (handle : Nat)
  | invalid
deriving DecidableEq

/-- File-system accounting: the next fresh handle plus the log of opened and
closed handles, in order. -/
structure FSState where
  nextHandle : Nat
  opened : List Nat
  closed : List Nat
deriving DecidableEq

/-- State of a `_LogWriter` after `__init__`. -/
structure _LogWriter where
  log_func : Option Nat
  log_file : Option Nat
  needs_closing : Bool
deriving DecidableEq

/-- `_LogWriter.__init__` (lines 357-374): only the path case opens a handle
(`io.open(log, mode='w')`) and marks it owned. -/
def mkLogWriter (log : LogArg) (fs : FSState) : Except String (_LogWriter × FSState) :=
  match log with
  | LogArg.noLog => Except.ok (⟨none, none, false⟩, fs)
  | LogArg.callable f => Except.ok (⟨some f, none, false⟩, fs)
  | LogArg.path _ =>
    Except.ok (⟨none, some fs.nextHandle, true⟩,
      ⟨fs.nextHandle + 1, fs.opened ++ [fs.nextHandle], fs.closed⟩)
  | LogArg.fileLike handle => Except.ok (⟨none, some handle, false⟩, fs)
  | LogArg.invalid => Except.error "TypeError"

/-- `_LogWriter.__exit__` (lines 379-381): close the file only if there is
one and it is marked as owned. -/
def exitLogWriter (w : _LogWriter) (fs : FSState) : FSState :=
  match w.log_file with
  | some handle =>
    if w.needs_closing then ⟨fs.nextHandle, fs.opened, fs.closed ++ [handle]⟩ else fs
  | none => fs

/-- The `with _LogWriter(log) as log:` scope wrapping each copy call (lines
481, 563, 738): construct the writer, run the body (whose outcome `body` may
be an error that will propagate), and run `__exit__` on every exit path. -/
def withLogWriter (log : LogArg) (fs : FSState) (body : Except String Unit) :
    Except String (Except String Unit × FSState) :=
  match mkLogWriter log fs with
  | Except.error e => Except.error e
  | Except.ok (w, fs1) => Except.ok (body, exitLogWriter w fs1)

/-! ## Lazy container view `LazyLoader` (lines 292-319) -/

/-- The wrapped hierarchical group: its child names and, for each name, the
fully materialized array data `grp[item][...]`. -/
structure GroupM where
  keys : List String
  val : String → List Nat

/-- A `LazyLoader` instance: the wrapped group, the materialization cache,
and (as instrumentation for the claims) the log of keys fetched from the
underlying group. -/
structure LazyLoader where
  grp : GroupM
  cache : List (String × List Nat)
  fetched : List String

/-- `LazyLoader.__init__`. -/
def LazyLoader.init (g : GroupM) : LazyLoader := ⟨g, [], []⟩

/-- `LazyLoader.__getitem__` (lines 298-304): serve from the cache, else
fetch from the group, cache, and return. -/
def LazyLoader.getItem (ll : LazyLoader) (item : String) : List Nat × LazyLoader :=
  match alookup ll.cache item with
  | some v => (v, ll)
  | none =>
    let arr := ll.grp.val item
    (arr, ⟨ll.grp, ll.cache ++ [(item, arr)], ll.fetched ++ [item]⟩)

/-- `LazyLoader.__len__` delegates to the group (line 306). -/
def LazyLoader.size (ll : LazyLoader) : Nat := ll.grp.keys.length

/-- `LazyLoader.__iter__` delegates to the group (line 309). -/
def LazyLoader.iterKeys (ll : LazyLoader) : List String := ll.grp.keys

/-- `LazyLoader.__contains__` delegates to the group (line 312). -/
def LazyLoader.hasKey (ll : LazyLoader) (item : String) : Bool := ll.grp.keys.contains item

/-- Operations a caller can perform on a view instance. -/
inductive LLOp where
  | get (k : String)
  | size
  | iter
  | hasKey (k : String)

/-- Run a sequence of operations against a view instance; only `get` can
change the instance's state. -/
def LazyLoader.run (ll : LazyLoader) : List LLOp → LazyLoader
  | [] => ll
  | LLOp.get k :: ops => LazyLoader.run (ll.getItem k).2 ops
  | LLOp.size :: ops => LazyLoader.run ll ops
  | LLOp.iter :: ops => LazyLoader.run ll ops
  | LLOp.hasKey _ :: ops => LazyLoader.run ll ops

/-- Occurrences of a key in a fetch log. -/
def countS (k : String) : List String → Nat
  | [] => 0
  | x :: rest => (if x = k then 1 else 0) + countS k rest

/-! ## `load` (lines 322-352) -/

/-- Result of `load`: a fully materialized array, or a lazy view of a group. -/
inductive LoadResult where
  | arr (a : List Nat)
  | lazy (ll : LazyLoader)

/-- Shallow embedding of `load`.  `contains_array` and `contains_group` are
the oracle answers of the external `zarr.storage` helpers for this store;
`arrData` is what `Array(store)[...]` would materialize.  The function body
mirrors the `if/elif` chain, whose fall-through is Python's implicit
`return None`; the `Except` layer records that no branch raises. -/
def load (contains_array contains_group : Bool) (arrData : List Nat) (grp : GroupM) :
    Except String (Option LoadResult) :=
  if contains_array then Except.ok (some (LoadResult.arr arrData))
  else if contains_group then Except.ok (some (LoadResult.lazy (LazyLoader.init grp)))
  else Except.ok none

/-! ## Demonstration inputs shared by witnesses and counterexamples -/

/-- A small source leaf: shape (3,), chunks (3,), data 1..3, one attribute,
h5py-side compression "lzf". -/
def demoLeaf : LeafData :=
  ⟨[3], "i8", [3], [1, 2, 3], [("u", "m")], KwVal.vnone, KwVal.str "lzf",
    KwVal.nat 0, KwVal.bool false⟩

/-- A source tree: a root group with one child container "g" that has
attributes and one leaf grandchild "t". -/
def demoTree : SNode :=
  SNode.group [("units", "m")]
    (SForest.cons "g" (SNode.group [("a", "b")]
      (SForest.cons "t" (SNode.leaf demoLeaf) SForest.nil)) SForest.nil)

/-! ## Claim C8 -/

/-- Invariant tying a view instance to its underlying group: the group
reference is unchanged, the fetch count of every key matches whether the key
has been cached, and every cached value is the group's value. -/
def LLGood (g : GroupM) (ll : LazyLoader) : Prop :=
  ll.grp = g ∧
    (∀ k, countS k ll.fetched = if (alookup ll.cache k).isSome then 1 else 0) ∧
    ∀ k v, alookup ll.cache k = some v → v = g.val k

theorem alookup_append (d e : List (String × α)) (k : String) :
    alookup (d ++ e) k =
      match alookup d k with
      | some v => some v
      | none => alookup e k := by
  induction d with
  | nil => simp [alookup]
  | cons kv rest ih =>
    obtain ⟨k0, v0⟩ := kv
    by_cases h : k0 = k <;> simp [alookup, h, ih]

theorem alookup_assocSet_self (d : List (String × α)) (k : String) (v : α) :
    alookup (assocSet d k v) k = some v := by
  induction d with
  | nil => simp [assocSet, alookup]
  | cons kv rest ih =>
    obtain ⟨k0, v0⟩ := kv
    by_cases h : k0 = k <;> simp [assocSet, alookup, h, ih]

theorem alookup_assocSet_ne (d : List (String × α)) (k k' : String) (v : α)
    (h : k ≠ k') : alookup (assocSet d k v) k' = alookup d k' := by
  induction d with
  | nil => simp [assocSet, alookup, h]
  | cons kv rest ih =>
    obtain ⟨k0, v0⟩ := kv
    by_cases h0 : k0 = k
    · subst h0
      simp [assocSet, alookup, h]
    · by_cases h1 : k0 = k'
      · subst h1
        simp [assocSet, alookup, h0]
      · simp [assocSet, alookup, h0, h1, ih]

theorem insertSorted_perm (k : String) (l : List String) :
    (insertSorted k l).Perm (k :: l) := by
  induction l with
  | nil => simp [insertSorted]
  | cons x xs ih =>
    by_cases h : strKeyLt k x = true
    · simp [insertSorted, h]
    · simp only [insertSorted, if_neg h]
      exact (ih.cons x).trans (List.Perm.swap k x xs)

theorem sortKeys_perm (l : List String) : (sortKeys l).Perm l := by
  induction l with
  | nil => simp [sortKeys]
  | cons x xs ih => exact (insertSorted_perm x (sortKeys xs)).trans (ih.cons x)

theorem mem_sortKeys (a : String) (l : List String) : a ∈ sortKeys l ↔ a ∈ l :=
  (sortKeys_perm l).mem_iff

/-! ## Basic lemmas about the flat copier -/

theorem mem_map_fst_iff_alookup (src : List (String × α)) (k : String) :
    k ∈ src.map Prod.fst ↔ ∃ v, alookup src k = some v := by
  induction src with
  | nil => simp [alookup]
  | cons kv rest ih =>
    obtain ⟨k0, v0⟩ := kv
    by_cases h : k0 = k
    · subst h
      simp [alookup]
    · have h' : ¬k = k0 := fun e => h e.symm
      simp [alookup, h, h', ih]

theorem csEntry_eq_some (sp dp : String) (excludes includes : List (String → Bool))
    (source : List (String × List Nat)) (a k dk : String) (v : List Nat) :
    csEntry sp dp excludes includes source a = some (k, dk, v) ↔
      a = k ∧ strStartsWith k sp = true ∧ keyExcluded excludes includes k = false ∧
        alookup source k = some v ∧ dk = dp ++ strDropLen k sp.length := by
  constructor
  · intro h
    unfold csEntry at h
    by_cases h1 : strStartsWith a sp = true
    · rw [if_pos h1] at h
      by_cases h2 : keyExcluded excludes includes a = true
      · simp [h2] at h
      · rw [if_neg h2] at h
        cases hv : alookup source a with
        | none => rw [hv] at h; exact absurd h (by simp)
        | some w =>
          rw [hv] at h
          obtain ⟨rfl, rfl, rfl⟩ : a = k ∧ dp ++ strDropLen a sp.length = dk ∧ w = v := by
            simpa using h
          exact ⟨rfl, h1, by simpa using h2, hv, rfl⟩
    · simp [h1] at h
  · rintro ⟨rfl, h1, h2, h3, rfl⟩
    unfold csEntry
    rw [if_pos h1, if_neg (by simp [h2]), h3]

theorem mem_copy_store_pairs (source : List (String × List Nat))
    (source_path dest_path : String) (excludes includes : List (String → Bool))
    (k dk : String) (v : List Nat) :
    (k, dk, v) ∈ copy_store_pairs source source_path dest_path excludes includes ↔
      k ∈ source.map Prod.fst ∧ strStartsWith k (prefixTerm source_path) = true ∧
        keyExcluded excludes includes k = false ∧ alookup source k = some v ∧
        dk = prefixTerm dest_path ++ strDropLen k (prefixTerm source_path).length := by
  unfold copy_store_pairs
  rw [List.mem_filterMap]
  constructor
  · rintro ⟨a, ha, he⟩
    rw [csEntry_eq_some] at he
    obtain ⟨rfl, h1, h2, h3, h4⟩ := he
    exact ⟨(mem_sortKeys a _).1 ha, h1, h2, h3, h4⟩
  · rintro ⟨hm, h1, h2, h3, h4⟩
    refine ⟨k, (mem_sortKeys k _).2 ?_, (csEntry_eq_some _ _ _ _ _ _ _ _ _).2 ⟨rfl, h1, h2, h3, h4⟩⟩
    rw [mem_map_fst_iff_alookup]
    exact ⟨v, h3⟩

/-! ## Claim C4 -/

/-- C4: include patterns override exclude patterns: a key matching both an
exclude and an include pattern is kept; a key is dropped exactly when some
exclude pattern matches it and no include pattern matches it; with empty
exclude and include lists every key is kept. -/
theorem filter_include_overrides (excludes includes : List (String → Bool)) (k : String) :
    ((excludes.any fun p => p k) = true → (includes.any fun p => p k) = true →
        keyExcluded excludes includes k = false) ∧
      (keyExcluded excludes includes k = true ↔
        (excludes.any fun p => p k) = true ∧ (includes.any fun p => p k) = false) ∧
      keyExcluded [] [] k = false := by
  refine ⟨fun he hi => ?_, ⟨fun h => ?_, fun h => ?_⟩, by simp [keyExcluded]⟩
  · simp [keyExcluded, he, hi]
  · simp only [keyExcluded] at h
    split at h
    · next he => exact ⟨he, by simpa using h⟩
    · exact absurd h (by simp)
  · simp [keyExcluded, h.1, h.2]

/-- C4 witness: a key matched by both an exclude and an include pattern
("a" here) is kept. -/
theorem filter_include_overrides_witness :
    keyExcluded [fun s => s == "a"] [fun s => s == "a"] "a" = false :=
  (filter_include_overrides [fun s => s == "a"] [fun s => s == "a"] "a").1
    (by simp) (by simp)

/-! ## String prefix lemmas -/

theorem str_ext {a b : String} (h : a.data = b.data) : a = b := by
  cases a
  cases b
  exact congrArg String.mk h

theorem listPfx_append_drop (p s : List Char) (h : listPfx p s = true) :
    p ++ s.drop p.length = s := by
  induction p generalizing s with
  | nil => simp
  | cons a as ih =>
    cases s with
    | nil => exact absurd h (by simp [listPfx])
    | cons b bs =>
      unfold listPfx at h
      split at h
      · next he => simpa [he] using ih bs h
      · exact absurd h (by simp)

theorem strStartsWith_append_drop (s p : String) (h : strStartsWith s p = true) :
    p ++ strDropLen s p.length = s := by
  apply str_ext
  rw [String.data_append]
  exact listPfx_append_drop p.data s.data h

theorem startsWith_drop_inj (k1 k2 p : String) (h1 : strStartsWith k1 p = true)
    (h2 : strStartsWith k2 p = true)
    (he : strDropLen k1 p.length = strDropLen k2 p.length) : k1 = k2 := by
  rw [← strStartsWith_append_drop k1 p h1, ← strStartsWith_append_drop k2 p h2, he]

theorem str_append_cancel_left {p a b : String} (h : p ++ a = p ++ b) : a = b := by
  apply str_ext
  have := congrArg String.data h
  rw [String.data_append, String.data_append] at this
  exact List.append_cancel_left this

/-! ## Claim C1 -/

/-- C1: for every key `K` of the source flat store, `copy_store` copies `K`
iff `K` starts with the normalized, separator-terminated source path prefix
and the exclude/include filter keeps `K`; a copied key lands at
`destPrefix ++ K[len(sourcePrefix):]`. -/
theorem copy_store_copies_iff (source : List (String × List Nat))
    (source_path dest_path : String) (excludes includes : List (String → Bool))
    (k : String) :
    ((∃ dk v, (k, dk, v) ∈ copy_store_pairs source source_path dest_path excludes includes) ↔
        k ∈ source.map Prod.fst ∧ strStartsWith k (prefixTerm source_path) = true ∧
          keyExcluded excludes includes k = false) ∧
      ∀ dk v, (k, dk, v) ∈ copy_store_pairs source source_path dest_path excludes includes →
        dk = prefixTerm dest_path ++ strDropLen k (prefixTerm source_path).length := by
  constructor
  · constructor
    · rintro ⟨dk, v, hm⟩
      rw [mem_copy_store_pairs] at hm
      exact ⟨hm.1, hm.2.1, hm.2.2.1⟩
    · rintro ⟨hm, h1, h2⟩
      obtain ⟨v, hv⟩ := (mem_map_fst_iff_alookup source k).1 hm
      exact ⟨_, v, (mem_copy_store_pairs source source_path dest_path excludes includes
        k _ v).2 ⟨hm, h1, h2, hv, rfl⟩⟩
  · intro dk v hm
    exact ((mem_copy_store_pairs source source_path dest_path excludes includes
      k dk v).1 hm).2.2.2.2

/-- C1 witness: in the spec section 8 scenario the key "a/0" is copied to
"x/a/0". -/
theorem copy_store_copies_iff_witness :
    ("a/0", "x/a/0", [0]) ∈
        copy_store_pairs [("a/.meta", [77]), ("a/0", [0]), ("b/.meta", [78])] "" "x" [] [] ∧
      "x/a/0" = prefixTerm "x" ++ strDropLen "a/0" (prefixTerm "").length := by
  refine ⟨by decide, ?_⟩
  exact (copy_store_copies_iff [("a/.meta", [77]), ("a/0", [0]), ("b/.meta", [78])]
    "" "x" [] [] "a/0").2 "x/a/0" [0] (by decide)

/-! ## Claim C5 -/

theorem alookup_foldl_writes_not_mem (ws : List (String × String × List Nat))
    (d : List (String × List Nat)) (dk : String)
    (h : ∀ k' v', (k', dk, v') ∉ ws) :
    alookup (ws.foldl (fun acc e => assocSet acc e.2.1 e.2.2) d) dk = alookup d dk := by
  induction ws generalizing d with
  | nil => rfl
  | cons e rest ih =>
    obtain ⟨k0, dk0, v0⟩ := e
    have hk : dk0 ≠ dk := by
      intro he
      exact h k0 v0 (by simp [he])
    rw [List.foldl_cons, ih _ fun k' v' hv => h k' v' (List.mem_cons_of_mem _ hv),
      alookup_assocSet_ne _ _ _ _ hk]

theorem alookup_foldl_writes (ws : List (String × String × List Nat))
    (d : List (String × List Nat)) (dk : String) (v : List Nat)
    (hmem : ∃ k', (k', dk, v) ∈ ws) (huniq : ∀ k' v', (k', dk, v') ∈ ws → v' = v) :
    alookup (ws.foldl (fun acc e => assocSet acc e.2.1 e.2.2) d) dk = some v := by
  induction ws generalizing d with
  | nil =>
    obtain ⟨k', hk'⟩ := hmem
    exact absurd hk' (by simp)
  | cons e rest ih =>
    obtain ⟨k0, dk0, v0⟩ := e
    rw [List.foldl_cons]
    by_cases hr : ∃ k' v', (k', dk, v') ∈ rest
    · obtain ⟨k', v', hv'⟩ := hr
      have hv2 : v' = v := huniq k' v' (List.mem_cons_of_mem _ hv')
      subst hv2
      exact ih _ ⟨k', hv'⟩ fun k'' w hw => huniq k'' w (List.mem_cons_of_mem _ hw)
    · push_neg at hr
      rw [alookup_foldl_writes_not_mem rest _ dk hr]
      obtain ⟨k', hk'⟩ := hmem
      rcases List.mem_cons.1 hk' with he | he
      · cases he
        exact alookup_assocSet_self _ _ _
      · exact absurd he (hr k' v)

/-- C5: `copy_store` is a verbatim byte transfer: the value stored at the
computed destination key in the final destination store equals the value read
from the source key, for every copied triple. -/
theorem copy_store_verbatim (source dest : List (String × List Nat))
    (source_path dest_path : String) (excludes includes : List (String → Bool))
    (k dk : String) (v : List Nat)
    (hmem : (k, dk, v) ∈ copy_store_pairs source source_path dest_path excludes includes) :
    alookup (copy_store source dest source_path dest_path excludes includes) dk = some v ∧
      alookup source k = some v := by
  have hc := (mem_copy_store_pairs source source_path dest_path excludes includes k dk v).1 hmem
  refine ⟨?_, hc.2.2.2.1⟩
  unfold copy_store
  apply alookup_foldl_writes
  · exact ⟨k, hmem⟩
  · rintro k2 v' hm2
    have hc2 := (mem_copy_store_pairs source source_path dest_path excludes includes
      k2 dk v').1 hm2
    have hkk : k2 = k := by
      apply startsWith_drop_inj k2 k (prefixTerm source_path) hc2.2.1 hc.2.1
      exact str_append_cancel_left (hc2.2.2.2.2.symm.trans hc.2.2.2.2)
    subst hkk
    have hvv := hc2.2.2.2.1.symm.trans hc.2.2.2.1
    exact Option.some_injective _ hvv

/-- C5 witness: in the spec section 8 scenario, the copied value at "x/a/0"
is the original value at "a/0". -/
theorem copy_store_verbatim_witness :
    alookup (copy_store [("a/.meta", [77]), ("a/0", [0]), ("b/.meta", [78])] [] "" "x" [] [])
        "x/a/0" = some [0] ∧
      alookup [("a/.meta", [77]), ("a/0", [0]), ("b/.meta", [78])] "a/0" = some [0] :=
  copy_store_verbatim [("a/.meta", [77]), ("a/0", [0]), ("b/.meta", [78])] [] "" "x" [] []
    "a/0" "x/a/0" [0] (by decide)

/-! ## Heap and setdefault lemmas -/

theorem getD_append_lt (l e : List α) (r : Nat) (d0 : α) (hr : r < l.length) :
    (l ++ e).getD r d0 = l.getD r d0 := by
  induction l generalizing r with
  | nil => exact absurd hr (by simp)
  | cons a rest ih =>
    cases r with
    | zero => rfl
    | succ n =>
      simp only [List.cons_append, List.getD_cons_succ]
      exact ih n (by simpa using hr)

theorem getD_set_ne (l : List α) (i j : Nat) (a : α) (d0 : α) (h : i ≠ j) :
    (l.set i a).getD j d0 = l.getD j d0 := by
  induction l generalizing i j with
  | nil => rfl
  | cons x rest ih =>
    cases i with
    | zero =>
      cases j with
      | zero => exact absurd rfl h
      | succ m => simp [List.set]
    | succ n =>
      cases j with
      | zero => simp [List.set]
      | succ m =>
        simp only [List.set, List.getD_cons_succ]
        exact ih n m fun e => h (by rw [e])

theorem heap_alloc_get_lt (h : Heap) (d : Kws) (r : Nat) (hr : r < h.cells.length) :
    (h.alloc d).2.get r = h.get r :=
  getD_append_lt _ _ _ _ hr

theorem heap_put_get_ne (h : Heap) (r0 : Nat) (d : Kws) (r : Nat) (hne : r0 ≠ r) :
    (h.put r0 d).get r = h.get r :=
  getD_set_ne _ _ _ _ _ hne

theorem heap_alloc_length (h : Heap) (d : Kws) :
    (h.alloc d).2.cells.length = h.cells.length + 1 := by
  simp [Heap.alloc]

theorem heap_put_length (h : Heap) (r : Nat) (d : Kws) :
    (h.put r d).cells.length = h.cells.length := by
  simp [Heap.put]

theorem alookup_setdefault_ne (d : Kws) (k k' : String) (v : KwVal) (h : k ≠ k') :
    alookup (setdefault d k v) k' = alookup d k' := by
  unfold setdefault
  cases hd : alookup d k with
  | some w => rfl
  | none =>
    rw [alookup_append]
    cases hd' : alookup d k' with
    | some w => rfl
    | none => simp [alookup, h]

theorem alookup_setdefault_self_none (d : Kws) (k : String) (v : KwVal)
    (h : alookup d k = none) : alookup (setdefault d k v) k = some v := by
  unfold setdefault
  rw [h, alookup_append, h]
  simp [alookup]

/-! ## The node copier never errors once a name is supplied, and never
touches existing heap cells -/

mutual
theorem _copy_ok_of_resolve (sh dh : Bool) (src : SNode) (sname : String)
    (name? : Option String) (n : String) (dpath : String) (root shallow wa : Bool)
    (ck : Nat) (h : Heap) (hn : resolveName sname name? = Except.ok n) :
    ∃ lg d h', _copy sh dh src sname name? dpath root shallow wa ck h =
      Except.ok (lg, d, h') := by
  cases src with
  | leaf info =>
    simp only [_copy, hn]
    exact ⟨_, _, _, rfl⟩
  | group gattrs children =>
    simp only [_copy, hn]
    by_cases hb : (root || !shallow) = true
    · obtain ⟨lgs, kids, h2, hc⟩ := _copyChildren_ok sh dh children sname (dpath ++ "/" ++ n)
        shallow wa ck h
      rw [if_pos hb, hc]
      exact ⟨_, _, _, rfl⟩
    · rw [if_neg hb]
      exact ⟨_, _, _, rfl⟩

theorem _copyChildren_ok (sh dh : Bool) (children : SForest) (sname gpath : String)
    (shallow wa : Bool) (ck : Nat) (h : Heap) :
    ∃ lg kids h', _copyChildren sh dh children sname gpath shallow wa ck h =
      Except.ok (lg, kids, h') := by
  cases children with
  | nil => exact ⟨_, _, _, rfl⟩
  | cons k c rest =>
    obtain ⟨lg1, kid?, h2, h1⟩ := _copy_ok_of_resolve sh dh c (sname ++ "/" ++ k) (some k) k
      gpath false shallow wa (h.alloc (h.get ck)).1 (h.alloc (h.get ck)).2 rfl
    obtain ⟨lgs, kids, h3, hrest⟩ := _copyChildren_ok sh dh rest sname gpath shallow wa ck h2
    simp only [_copyChildren]
    rw [h1]
    simp only []
    rw [hrest]
    exact ⟨_, _, _, rfl⟩
end

mutual
theorem _copy_frame (sh dh : Bool) (src : SNode) (sname : String) (name? : Option String)
    (dpath : String) (root shallow wa : Bool) (ck : Nat) (h : Heap)
    (lg : List String) (d : Option (String × DNode)) (h' : Heap)
    (heq : _copy sh dh src sname name? dpath root shallow wa ck h = Except.ok (lg, d, h')) :
    h.cells.length ≤ h'.cells.length ∧ ∀ r, r < h.cells.length → h'.get r = h.get r := by
  cases src with
  | leaf info =>
    cases hn : resolveName sname name? with
    | error e => simp [_copy, hn] at heq
    | ok name =>
      simp only [_copy, hn] at heq
      cases heq
      constructor
      · rw [heap_put_length, heap_alloc_length]
        omega
      · intro r hr
        have hne : (h.alloc (h.get ck)).1 ≠ r := by
          simp only [Heap.alloc]
          omega
        rw [heap_put_get_ne _ _ _ _ hne, heap_alloc_get_lt _ _ _ hr]
  | group gattrs children =>
    cases hn : resolveName sname name? with
    | error e => simp [_copy, hn] at heq
    | ok name =>
      simp only [_copy, hn] at heq
      by_cases hb : (root || !shallow) = true
      · rw [if_pos hb] at heq
        cases hc : _copyChildren sh dh children sname (dpath ++ "/" ++ name) shallow wa ck h with
        | error e =>
          rw [hc] at heq
          simp at heq
        | ok res =>
          obtain ⟨lgs, kids2, h2⟩ := res
          rw [hc] at heq
          simp only [] at heq
          cases heq
          exact _copyChildren_frame sh dh children sname (dpath ++ "/" ++ name) shallow wa
            ck h _ _ _ hc
      · rw [if_neg hb] at heq
        cases heq
        exact ⟨le_refl _, fun r hr => rfl⟩

theorem _copyChildren_frame (sh dh : Bool) (children : SForest) (sname gpath : String)
    (shallow wa : Bool) (ck : Nat) (h : Heap) (lg : List String) (kids : DForest) (h' : Heap)
    (heq : _copyChildren sh dh children sname gpath shallow wa ck h = Except.ok (lg, kids, h')) :
    h.cells.length ≤ h'.cells.length ∧ ∀ r, r < h.cells.length → h'.get r = h.get r := by
  cases children with
  | nil =>
    simp only [_copyChildren] at heq
    cases heq
    exact ⟨le_refl _, fun r hr => rfl⟩
  | cons k c rest =>
    simp only [_copyChildren] at heq
    cases h1 : _copy sh dh c (sname ++ "/" ++ k) (some k) gpath false shallow wa
        (h.alloc (h.get ck)).1 (h.alloc (h.get ck)).2 with
    | error e =>
      rw [h1] at heq
      simp at heq
    | ok res1 =>
      obtain ⟨lg1, kid?, h2⟩ := res1
      rw [h1] at heq
      simp only [] at heq
      cases hrest : _copyChildren sh dh rest sname gpath shallow wa ck h2 with
      | error e =>
        rw [hrest] at heq
        simp at heq
      | ok res2 =>
        obtain ⟨lgs, kids2, h3⟩ := res2
        rw [hrest] at heq
        simp only [] at heq
        cases heq
        have f1 := _copy_frame sh dh c (sname ++ "/" ++ k) (some k) gpath false shallow wa
          (h.alloc (h.get ck)).1 (h.alloc (h.get ck)).2 _ _ _ h1
        have f2 := _copyChildren_frame sh dh rest sname gpath shallow wa ck h2 _ _ _ hrest
        have hal : (h.alloc (h.get ck)).2.cells.length = h.cells.length + 1 :=
          heap_alloc_length h (h.get ck)
        constructor
        · omega
        · intro r hr
          rw [f2.2 r (by omega), f1.2 r (by omega), heap_alloc_get_lt _ _ _ hr]
end

/-! ## Claim C2 -/

/-- C2 (amended): with `shallow=True`, a non-root container encountered
during the traversal is skipped entirely: the `elif root or not shallow`
guard fails, so no destination container is created, no attributes are
copied, and no children are visited.  Consequently a root-level shallow copy
of a group whose only child is a group produces a destination group with no
children at all. -/
theorem shallow_skips_nonroot_containers :
    (∀ sh dh gattrs children sname n dpath wa ck h,
      _copy sh dh (SNode.group gattrs children) sname (some n) dpath false true wa ck h =
        Except.ok ([], none, h)) ∧
      ∀ sh dh rattrs k gattrs gchildren sname n wa ckws,
        copy sh dh (SNode.group rattrs (SForest.cons k (SNode.group gattrs gchildren)
            SForest.nil)) sname (some n) true wa ckws =
          Except.ok ([sname ++ " -> " ++ ("/" ++ n)],
            some (n, DNode.group (if wa then [] else attrsUpdate [] rattrs) DForest.nil),
            ⟨[ckws, ckws]⟩) :=
  ⟨fun _ _ _ _ _ _ _ _ _ _ => rfl, fun _ _ _ _ _ _ _ _ _ _ => rfl⟩

/-- C2 counterexample: copying `demoTree` with `shallow=True` does not create
the child container "g" at all — the destination group has zero children —
contradicting the claim that the non-root container is still created with its
attributes. -/
theorem shallow_claim_counterexample :
    copy false false demoTree "/src" (some "dst") true false [] =
      Except.ok (["/src -> /dst"], some ("dst", DNode.group [("units", "m")] DForest.nil),
        ⟨[[], []]⟩) := rfl

/-! ## Claim C3 -/

/-- C3 (amended): the four-case compression-defaulting table of the leaf
branch.  native→native copies the source `compressor` verbatim;
foreign→native adds nothing beyond the chunks default, leaving the
destination's own defaults in force; native→foreign defaults to gzip level 1
with shuffle; foreign→foreign copies the source's `compression`,
`compression_opts` and `shuffle` settings verbatim (not, as claimed, only
what the caller supplied). -/
theorem compression_defaults_table (src : LeafData) (ck : Kws) :
    (alookup ck "compressor" = none →
        alookup (resolveKws false false src ck) "compressor" = some src.compressor) ∧
      (∀ key, key ≠ "chunks" →
        alookup (resolveKws true false src ck) key = alookup ck key) ∧
      (alookup ck "compression" = none →
        alookup (resolveKws false true src ck) "compression" = some (KwVal.str "gzip")) ∧
      (alookup ck "compression_opts" = none →
        alookup (resolveKws false true src ck) "compression_opts" = some (KwVal.nat 1)) ∧
      (alookup ck "shuffle" = none →
        alookup (resolveKws false true src ck) "shuffle" = some (KwVal.bool true)) ∧
      (alookup ck "compression" = none →
        alookup (resolveKws true true src ck) "compression" = some src.compression) ∧
      (alookup ck "compression_opts" = none →
        alookup (resolveKws true true src ck) "compression_opts" = some src.compression_opts) ∧
      (alookup ck "shuffle" = none →
        alookup (resolveKws true true src ck) "shuffle" = some src.shuffle) := by
  refine ⟨fun h => ?_, fun key hk => ?_, fun h => ?_, fun h => ?_, fun h => ?_,
    fun h => ?_, fun h => ?_, fun h => ?_⟩
  · show alookup (setdefault (setdefault ck "chunks" (KwVal.natList src.chunks))
      "compressor" src.compressor) "compressor" = some src.compressor
    refine alookup_setdefault_self_none _ _ _ ?_
    rw [alookup_setdefault_ne _ _ _ _ (by decide)]
    exact h
  · show alookup (setdefault ck "chunks" (KwVal.natList src.chunks)) key = alookup ck key
    exact alookup_setdefault_ne _ _ _ _ fun e => hk e.symm
  · show alookup (setdefault (setdefault (setdefault (setdefault ck "chunks"
        (KwVal.natList src.chunks)) "compression" (KwVal.str "gzip")) "compression_opts"
        (KwVal.nat 1)) "shuffle" (KwVal.bool true)) "compression" = some (KwVal.str "gzip")
    rw [alookup_setdefault_ne _ _ _ _ (by decide), alookup_setdefault_ne _ _ _ _ (by decide)]
    refine alookup_setdefault_self_none _ _ _ ?_
    rw [alookup_setdefault_ne _ _ _ _ (by decide)]
    exact h
  · show alookup (setdefault (setdefault (setdefault (setdefault ck "chunks"
        (KwVal.natList src.chunks)) "compression" (KwVal.str "gzip")) "compression_opts"
        (KwVal.nat 1)) "shuffle" (KwVal.bool true)) "compression_opts" = some (KwVal.nat 1)
    rw [alookup_setdefault_ne _ _ _ _ (by decide)]
    refine alookup_setdefault_self_none _ _ _ ?_
    rw [alookup_setdefault_ne _ _ _ _ (by decide), alookup_setdefault_ne _ _ _ _ (by decide)]
    exact h
  · show alookup (setdefault (setdefault (setdefault (setdefault ck "chunks"
        (KwVal.natList src.chunks)) "compression" (KwVal.str "gzip")) "compression_opts"
        (KwVal.nat 1)) "shuffle" (KwVal.bool true)) "shuffle" = some (KwVal.bool true)
    refine alookup_setdefault_self_none _ _ _ ?_
    rw [alookup_setdefault_ne _ _ _ _ (by decide), alookup_setdefault_ne _ _ _ _ (by decide),
      alookup_setdefault_ne _ _ _ _ (by decide)]
    exact h
  · show alookup (setdefault (setdefault (setdefault (setdefault ck "chunks"
        (KwVal.natList src.chunks)) "compression" src.compression) "compression_opts"
        src.compression_opts) "shuffle" src.shuffle) "compression" = some src.compression
    rw [alookup_setdefault_ne _ _ _ _ (by decide), alookup_setdefault_ne _ _ _ _ (by decide)]
    refine alookup_setdefault_self_none _ _ _ ?_
    rw [alookup_setdefault_ne _ _ _ _ (by decide)]
    exact h
  · show alookup (setdefault (setdefault (setdefault (setdefault ck "chunks"
        (KwVal.natList src.chunks)) "compression" src.compression) "compression_opts"
        src.compression_opts) "shuffle" src.shuffle) "compression_opts" =
      some src.compression_opts
    rw [alookup_setdefault_ne _ _ _ _ (by decide)]
    refine alookup_setdefault_self_none _ _ _ ?_
    rw [alookup_setdefault_ne _ _ _ _ (by decide), alookup_setdefault_ne _ _ _ _ (by decide)]
    exact h
  · show alookup (setdefault (setdefault (setdefault (setdefault ck "chunks"
        (KwVal.natList src.chunks)) "compression" src.compression) "compression_opts"
        src.compression_opts) "shuffle" src.shuffle) "shuffle" = some src.shuffle
    refine alookup_setdefault_self_none _ _ _ ?_
    rw [alookup_setdefault_ne _ _ _ _ (by decide), alookup_setdefault_ne _ _ _ _ (by decide),
      alookup_setdefault_ne _ _ _ _ (by decide)]
    exact h

/-- C3 witness: for `demoLeaf` copied native→native with no caller overrides,
the resolved parameters carry the source's `compressor` verbatim. -/
theorem compression_defaults_table_witness :
    alookup (resolveKws false false demoLeaf []) "compressor" = some demoLeaf.compressor :=
  (compression_defaults_table demoLeaf []).1 rfl

/-- C3 counterexample: in the foreign→foreign case with no caller-supplied
compression options, the resolved parameters contain the source's
`compression` setting ("lzf"), not nothing — refuting "pass through only what
the caller explicitly supplied". -/
theorem compression_claim_counterexample :
    alookup (resolveKws true true demoLeaf []) "compression" = some (KwVal.str "lzf") ∧
      alookup (resolveKws true true demoLeaf []) "compression" ≠ none := by
  exact ⟨rfl, by decide⟩

/-! ## Claim C7 -/

/-- C7: with the `name` argument omitted, `_copy` fails with the
`InvalidName` condition exactly when the trailing segment of the source
node's own name is empty (raising before any destination node is created,
since the error return carries no created node), and any node it does create
is named after that trailing segment. -/
theorem name_omitted_resolution (sh dh : Bool) (src : SNode) (sname dpath : String)
    (root shallow wa : Bool) (ck : Nat) (h : Heap) :
    (_copy sh dh src sname none dpath root shallow wa ck h =
        Except.error CopyErr.invalidName ↔ lastSegment sname = "") ∧
      ∀ lg nm nd h', _copy sh dh src sname none dpath root shallow wa ck h =
          Except.ok (lg, some (nm, nd), h') → nm = lastSegment sname := by
  by_cases hs : lastSegment sname = ""
  · have hr : resolveName sname none = Except.error CopyErr.invalidName := by
      simp [resolveName, hs]
    refine ⟨⟨fun _ => hs, fun _ => ?_⟩, fun lg nm nd h' heq => ?_⟩
    · cases src with
      | leaf info => simp [_copy, hr]
      | group gattrs children => simp [_copy, hr]
    · cases src with
      | leaf info => simp [_copy, hr] at heq
      | group gattrs children => simp [_copy, hr] at heq
  · have hr : resolveName sname none = Except.ok (lastSegment sname) := by
      simp [resolveName, hs]
    refine ⟨⟨fun he => ?_, fun he => absurd he hs⟩, fun lg nm nd h' heq => ?_⟩
    · obtain ⟨lg, d, h', hok⟩ := _copy_ok_of_resolve sh dh src sname none (lastSegment sname)
        dpath root shallow wa ck h hr
      rw [hok] at he
      exact absurd he (by simp)
    · cases src with
      | leaf info =>
        simp only [_copy, hr] at heq
        cases heq
        rfl
      | group gattrs children =>
        simp only [_copy, hr] at heq
        by_cases hb : (root || !shallow) = true
        · rw [if_pos hb] at heq
          cases hc : _copyChildren sh dh children sname (dpath ++ "/" ++ lastSegment sname)
              shallow wa ck h with
          | error e =>
            rw [hc] at heq
            simp at heq
          | ok res =>
            obtain ⟨lgs, kids2, h2⟩ := res
            rw [hc] at heq
            simp only [] at heq
            cases heq
            rfl
        · rw [if_neg hb] at heq
          simp at heq

/-- C7 witness: copying a leaf whose source name is "/a/b" with the name
argument omitted names the destination node "b", the trailing segment. -/
theorem name_omitted_resolution_witness : "b" = lastSegment "/a/b" :=
  (name_omitted_resolution false false (SNode.leaf demoLeaf) "/a/b" "" false false false 0
    ⟨[[]]⟩).2 _ "b" _ _ rfl

/-! ## Claim C10 -/

/-- C10: `copy`, `copy_all` and the recursive `_copy` never mutate the
caller-supplied `create_kws` dict: the leaf branch works on a `.copy()` in a
freshly allocated heap cell, so the caller's cell holds exactly the bindings
it held before. -/
theorem create_kws_not_mutated :
    (∀ sh dh src sname name? shallow wa ckws lg d h',
      copy sh dh src sname name? shallow wa ckws = Except.ok (lg, d, h') →
        h'.get 0 = ckws) ∧
      (∀ sh dh children sname shallow wa ckws lg kids h',
        copy_all sh dh children sname shallow wa ckws = Except.ok (lg, kids, h') →
          h'.get 0 = ckws) ∧
      ∀ sh dh src sname name? dpath root shallow wa ck h lg d h', ck < h.cells.length →
        _copy sh dh src sname name? dpath root shallow wa ck h = Except.ok (lg, d, h') →
          h'.get ck = h.get ck := by
  refine ⟨?_, ?_, ?_⟩
  · intro sh dh src sname name? shallow wa ckws lg d h' heq
    have hf := _copy_frame sh dh src sname name? "" true shallow wa 0 ⟨[ckws]⟩ lg d h' heq
    rw [hf.2 0 (by simp)]
    rfl
  · intro sh dh children sname shallow wa ckws lg kids h' heq
    have hf := _copyChildren_frame sh dh children sname "" shallow wa 0 ⟨[ckws]⟩ lg kids h' heq
    rw [hf.2 0 (by simp)]
    rfl
  · intro sh dh src sname name? dpath root shallow wa ck h lg d h' hck heq
    exact (_copy_frame sh dh src sname name? dpath root shallow wa ck h lg d h' heq).2 ck hck

/-- C10 witness: a concrete leaf copy with `create_kws = {"k": 1}` leaves the
caller's dict cell holding exactly `{"k": 1}` afterwards. -/
theorem create_kws_not_mutated_witness :
    Heap.get ⟨[[("k", KwVal.nat 1)],
        [("k", KwVal.nat 1), ("chunks", KwVal.natList [3]), ("compressor", KwVal.vnone)]]⟩ 0 =
      [("k", KwVal.nat 1)] :=
  create_kws_not_mutated.1 false false (SNode.leaf demoLeaf) "/a" (some "x") false false
    [("k", KwVal.nat 1)] _ _ _ rfl

/-! ## Claim C6 -/

/-- C6: per copy call, the path-constructed sink opens exactly one handle at
construction and closes exactly that handle on exit, whatever the body's
outcome (including an error); a caller-supplied writable or callable is never
closed (and nothing is opened for it). -/
theorem log_writer_discipline (p : String) (f handle : Nat) (fs : FSState)
    (body : Except String Unit) :
    (withLogWriter (LogArg.path p) fs body =
        Except.ok (body, ⟨fs.nextHandle + 1, fs.opened ++ [fs.nextHandle],
          fs.closed ++ [fs.nextHandle]⟩)) ∧
      withLogWriter (LogArg.fileLike handle) fs body = Except.ok (body, fs) ∧
      withLogWriter (LogArg.callable f) fs body = Except.ok (body, fs) ∧
      withLogWriter LogArg.noLog fs body = Except.ok (body, fs) :=
  ⟨rfl, rfl, rfl, rfl⟩

theorem countS_append_one (k x : String) (l : List String) :
    countS k (l ++ [x]) = countS k l + (if x = k then 1 else 0) := by
  induction l with
  | nil => simp [countS]
  | cons y rest ih => simp [countS, ih, Nat.add_assoc]

theorem LLGood_init (g : GroupM) : LLGood g (LazyLoader.init g) := by
  refine ⟨rfl, fun k => ?_, fun k v h => ?_⟩
  · simp [LazyLoader.init, countS, alookup]
  · simp [LazyLoader.init, alookup] at h

theorem LLGood_getItem (g : GroupM) (ll : LazyLoader) (k : String) (hg : LLGood g ll) :
    LLGood g (ll.getItem k).2 ∧ (ll.getItem k).1 = g.val k := by
  obtain ⟨h1, h2, h3⟩ := hg
  unfold LazyLoader.getItem
  cases hc : alookup ll.cache k with
  | some v => exact ⟨⟨h1, h2, h3⟩, h3 k v hc⟩
  | none =>
    refine ⟨⟨h1, fun k2 => ?_, fun k2 v hv => ?_⟩, by rw [h1]⟩
    · show countS k2 (ll.fetched ++ [k]) = _
      rw [countS_append_one, alookup_append]
      cases hc2 : alookup ll.cache k2 with
      | some w =>
        have hkk : ¬k = k2 := fun e => by rw [e] at hc; rw [hc] at hc2; cases hc2
        rw [h2 k2, hc2]
        simp [hkk]
      | none =>
        rw [h2 k2, hc2]
        by_cases he : k = k2
        · subst he
          simp [alookup]
        · simp [alookup, he]
    · rw [alookup_append] at hv
      cases hc2 : alookup ll.cache k2 with
      | some w =>
        rw [hc2] at hv
        cases hv
        exact h3 k2 v hc2
      | none =>
        rw [hc2] at hv
        by_cases he : k = k2
        · subst he
          simp [alookup] at hv
          rw [← hv, h1]
        · simp [alookup, he] at hv

theorem LLGood_run (g : GroupM) (ll : LazyLoader) (ops : List LLOp) (hg : LLGood g ll) :
    LLGood g (LazyLoader.run ll ops) := by
  induction ops generalizing ll with
  | nil => exact hg
  | cons op rest ih =>
    cases op with
    | get k => exact ih _ (LLGood_getItem g ll k hg).1
    | size => exact ih _ hg
    | iter => exact ih _ hg
    | hasKey k => exact ih _ hg

/-- C8: across every operation sequence on a view instance, each key is
fetched from the underlying group at most once (later gets are served from
the cache and still return the group's value), while length, iteration and
membership always delegate to the underlying group, never to the cache. -/
theorem lazy_loader_claims (g : GroupM) (ops : List LLOp) (k : String) :
    countS k ((LazyLoader.init g).run ops).fetched ≤ 1 ∧
      (((LazyLoader.init g).run ops).getItem k).1 = g.val k ∧
      (∀ ll : LazyLoader, ll.size = ll.grp.keys.length) ∧
      (∀ ll : LazyLoader, ll.iterKeys = ll.grp.keys) ∧
      ∀ ll : LazyLoader, ll.hasKey k = ll.grp.keys.contains k := by
  have hg := LLGood_run g (LazyLoader.init g) ops (LLGood_init g)
  refine ⟨?_, (LLGood_getItem g _ k hg).2, fun ll => rfl, fun ll => rfl, fun ll => rfl⟩
  rw [hg.2.1 k]
  split <;> omega

/-! ## Claim C9 -/

/-- C9: when the store contains neither an array nor a group, `load` returns
`None` rather than raising; indeed no branch of `load` signals an error. -/
theorem load_absent_returns_none (a : List Nat) (g : GroupM) :
    load false false a g = Except.ok none ∧
      ∀ ca cg, ∃ r, load ca cg a g = Except.ok r := by
  refine ⟨rfl, fun ca cg => ?_⟩
  cases ca <;> cases cg <;> exact ⟨_, rfl⟩
